import Mathlib

set_option maxHeartbeats 1000000
set_option synthInstance.maxSize 1024
set_option maxRecDepth 4000

/-!
Shallow embedding of `src/video2fit.py`.

The program correlates an action-camera video with the `.fit` device log
recorded in the same session:

* `get_video_uuid` walks the video container's box tree (`moov/udta/uuid`)
  and reads a 95-byte session identifier;
* `parse_fit_file` classifies decoded fit messages into camera-event
  dictionaries and telemetry dictionaries with fixed field whitelists;
* `get_fit_file_for_video` scans a directory listing for the `.fit` file
  whose camera events carry the video's identifier;
* `get_telemetry_dataframe` selects the `video_start`/`video_end`
  boundary timestamps and trims the forward-filled telemetry table to the
  half-open window.

Files are byte lists (`List Nat`), the fit message codec (the external
`fitparse` library) is modelled by its output (a list of messages, each an
optional list of named fields), and the tabular container (pandas) is
modelled by the row/column operations the program uses: building a table
from dictionaries, forward fill (`fillna(method="pad")`), and boolean-mask
filtering on the `timestamp` column.  Python exceptions are explicit: a
computation yields `PyR.ok`, raises (`PyR.exn`), or runs out of fuel
(`PyR.diverge`, used for the unbounded `while` loop of the box walker).
UTF-8 decoding of box names and identifier payloads is modelled as the
identity on byte lists; all containers quantified over carry ASCII names,
where the real decode cannot fail.
-/

/-- Python exceptions that the embedded code can raise. -/
inductive PyExn where
  | keyError
  | indexError
  | ioError
  | fileNotFoundError
  | typeError
  | structError
  | osError
  deriving DecidableEq, Repr

/-- Result of running a piece of embedded Python code: a value, a raised
exception, or fuel exhaustion of a modelled `while` loop. -/
inductive PyR (α : Type) where
  | ok (a : α)
  | exn (e : PyExn)
  | diverge
  deriving DecidableEq, Repr

/-- Sequencing of embedded computations: exceptions propagate. -/
def PyR.bind {α β : Type} : PyR α → (α → PyR β) → PyR β
  | .ok a, f => f a
  | .exn e, _ => .exn e
  | .diverge, _ => .diverge

/-- Mapping over a successful result; exceptions propagate. -/
def PyR.map {α β : Type} (f : α → β) : PyR α → PyR β
  | .ok a => .ok (f a)
  | .exn e => .exn e
  | .diverge => .diverge

/-- Python runtime values stored in decoded fit records: strings, numbers
(timestamps are modelled as integers) and Python `None`. -/
inductive FitValue where
  | str (s : String)
  | num (n : Int)
  | none_
  deriving DecidableEq, Repr

/-- A Python dictionary with string keys, in insertion order. -/
abbrev Dict := List (String × FitValue)

/-- Dictionary lookup, `d[k]` without the raising behaviour: `none` means
the key is absent (callers model `KeyError` on `none`). -/
def dictGet (d : Dict) (k : String) : Option FitValue :=
  (d.find? (fun p => p.1 == k)).map (fun p => p.2)

/-- Dictionary update `d[k] = v`: overwrite in place if the key exists,
otherwise append, exactly as Python dictionaries behave. -/
def dictSet (d : Dict) (k : String) (v : FitValue) : Dict :=
  if d.any (fun p => p.1 == k) then
    d.map (fun p => if p.1 == k then (k, v) else p)
  else d ++ [(k, v)]

/-- One named field of a decoded fit message. -/
structure FitField where
  name : String
  value : FitValue
  deriving DecidableEq, Repr

/-- One decoded fit message as yielded by the external `fitparse` codec:
`fields = none` models a message object without a `fields` attribute
(the `hasattr(message, 'fields')` guard). -/
structure FitMessage where
  name : String
  fields : Option (List FitField)
  deriving DecidableEq, Repr

def kTimestamp : String := "timestamp"
def kUtcTimestamp : String := "utc_timestamp"
def kLat : String := "position_lat"
def kLong : String := "position_long"
def kEnhAlt : String := "enhanced_altitude"
def kEnhSpeed : String := "enhanced_speed"
def kSpeed : String := "speed"
def kCet : String := "camera_event_type"
def kCfu : String := "camera_file_uuid"
def kCameraEvent : String := "camera_event"
def kVideoStart : String := "video_start"
def kVideoEnd : String := "video_end"

/-- Field whitelist for telemetry records (line 58 of the source). -/
def telemetry_allowed_fields : List String :=
  [kTimestamp, kUtcTimestamp, kLat, kLong, kEnhAlt, kEnhSpeed, kSpeed]

/-- Fields a telemetry record must carry to be retained (line 60). -/
def telemetry_required_fields : List String := [kLat, kLong]

/-- Field whitelist for camera-event records (line 61). -/
def camera_event_fields : List String := [kCet, kCfu, kTimestamp]

/-- The dictionary built from one message: whitelisted fields in source
order (the comprehension body of lines 74-76 and 80-82). -/
def buildDict (fs : List FitField) (allowed : List String) : Dict :=
  fs.foldl (fun d f => if f.name ∈ allowed then dictSet d f.name f.value else d) []

/-- The `set(telemetry_required_fields).issubset(set(message_data.keys()))`
check of line 83. -/
def requiredPresent (d : Dict) : Bool :=
  telemetry_required_fields.all (fun k => d.any (fun p => p.1 == k))

/-- Embedding of `parse_fit_file` (lines 45-86), applied to the message
sequence produced by the external codec.  Returns
`(camera_events_data, telemetry_data)`. -/
def parse_fit_file : List FitMessage → List Dict × List Dict
  | [] => ([], [])
  | m :: rest =>
    let r := parse_fit_file rest
    match m.fields with
    | none => r
    | some fs =>
      if m.name = kCameraEvent then
        (buildDict fs camera_event_fields :: r.1, r.2)
      else
        let d := buildDict fs telemetry_allowed_fields
        if requiredPresent d then (r.1, d :: r.2) else r

/-- The `fit_file.endswith('.fit')` test of line 102: the last four
characters are `.fit`. -/
def endsWithFit (s : String) : Bool :=
  s.data.reverse.take 4 == ['t', 'i', 'f', '.']

/-- The comprehension of line 104:
`[camera_event['camera_file_uuid'] for camera_event in camera_events_data]`.
An event lacking the key raises `KeyError`. -/
def uuids_of : List Dict → PyR (List FitValue)
  | [] => .ok []
  | d :: rest =>
    match dictGet d kCfu with
    | none => .exn .keyError
    | some v => (uuids_of rest).map (fun us => v :: us)

/-- The values the comprehension would produce when no lookup raises. -/
def eventUuids (ce : List Dict) : List FitValue :=
  ce.filterMap (fun d => dictGet d kCfu)

/-- The `for fit_file in os.listdir(fit_dir)` loop of lines 100-106.  The
accumulators are the Python variables `fit_file`, `camera_events_data`,
`telemetry_data`, all initialised to `None`; note that the loop variable
`fit_file` is overwritten by every directory entry, matching or not. -/
def fit_scan (video_uuid : FitValue) :
    List (String × List FitMessage) → Option String → Option (List Dict) →
      Option (List Dict) →
      PyR (Option String × Option (List Dict) × Option (List Dict))
  | [], f, ce, td => .ok (f, ce, td)
  | (name, msgs) :: rest, _, ce, td =>
    if endsWithFit name then
      let p := parse_fit_file msgs
      match uuids_of p.1 with
      | .ok us =>
        if video_uuid ∈ us then .ok (some name, some p.1, some p.2)
        else fit_scan video_uuid rest (some name) (some p.1) (some p.2)
      | .exn e => .exn e
      | .diverge => .diverge
    else fit_scan video_uuid rest (some name) ce td

/-- Embedding of `get_fit_file_for_video` (lines 89-107).  The directory is
modelled by its listing paired with each entry's decoded message stream;
`video_uuid` is the value `get_video_uuid` produced for the video
(a Python string, or `None` when the video carries no identifier). -/
def get_fit_file_for_video (video_uuid : FitValue)
    (listing : List (String × List FitMessage)) :
    PyR (Option String × Option (List Dict) × Option (List Dict)) :=
  fit_scan video_uuid listing none none none

/-- The boundary comprehension of lines 129-131 / 133-135:
`[e['timestamp'] for e in ce if e['camera_file_uuid'] == u and
e['camera_event_type'] == ev]`, with Python's short-circuit `and` and
per-lookup `KeyError`. -/
def boundary_list (u : FitValue) (ev : String) : List Dict → PyR (List FitValue)
  | [] => .ok []
  | d :: rest =>
    match dictGet d kCfu with
    | none => .exn .keyError
    | some v =>
      if v = u then
        match dictGet d kCet with
        | none => .exn .keyError
        | some t =>
          if t = FitValue.str ev then
            match dictGet d kTimestamp with
            | none => .exn .keyError
            | some ts => (boundary_list u ev rest).map (fun l => ts :: l)
          else boundary_list u ev rest
      else boundary_list u ev rest

/-- The `[ ... ][0]` selection of the boundary timestamp: an empty
comprehension result raises `IndexError`. -/
def boundary_ts (ce : List Dict) (u : FitValue) (ev : String) : PyR FitValue :=
  match boundary_list u ev ce with
  | .ok [] => .exn .indexError
  | .ok (t :: _) => .ok t
  | .exn e => .exn e
  | .diverge => .diverge

/-- A camera event matching the target identifier and event type (the two
conditions of the boundary comprehension). -/
def evMatch (d : Dict) (u : FitValue) (ev : String) : Prop :=
  dictGet d kCfu = some u ∧ dictGet d kCet = some (FitValue.str ev)

instance (d : Dict) (u : FitValue) (ev : String) : Decidable (evMatch d u ev) := by
  unfold evMatch; infer_instance

/-- The timestamps the boundary comprehension retains, when no lookup
raises. -/
def matchingTs (u : FitValue) (ev : String) (ce : List Dict) : List FitValue :=
  ce.filterMap (fun d => if evMatch d u ev then dictGet d kTimestamp else none)

/-- Columns of `pd.DataFrame(list_of_dicts)`: the union of the keys in
order of first appearance. -/
def dfCols (ds : List Dict) : List String :=
  ds.foldl
    (fun a d => (d.map Prod.fst).foldl (fun a k => if k ∈ a then a else a ++ [k]) a)
    []

/-- The tabular container (pandas, an external collaborator per the spec):
a column list and row-major cells, `none` standing for NaN. -/
structure DataFrame where
  cols : List String
  rows : List (List (Option FitValue))
  deriving DecidableEq, Repr

/-- `pd.DataFrame(telemetry_data)` (line 137): one row per dictionary,
missing keys become NaN. -/
def pdDataFrame (ds : List Dict) : DataFrame :=
  { cols := dfCols ds
    rows := ds.map (fun d => (dfCols ds).map (fun c => dictGet d c)) }

/-- Row-by-row forward fill: each row takes its own cell when present and
otherwise the carried value from the rows above. -/
def padRows : List (List (Option FitValue)) → List (Option FitValue) →
    List (List (Option FitValue))
  | [], _ => []
  | r :: rs, carry =>
    let r' := List.zipWith (fun v c => match v with | some x => some x | none => c) r carry
    r' :: padRows rs r'

/-- `df.fillna(method="pad")` (line 138): column-wise forward fill, nothing
before the first present value is filled. -/
def fillnaPad (df : DataFrame) : DataFrame :=
  { cols := df.cols, rows := padRows df.rows (List.replicate df.cols.length none) }

/-- `df.timestamp >= start` on one cell: NaN compares false; only numbers
compare (the program only ever compares decoded numeric timestamps). -/
def fitGE (a b : FitValue) : Bool :=
  match a, b with
  | .num x, .num y => y ≤ x
  | _, _ => false

/-- `df.timestamp < end` on one cell. -/
def fitLT (a b : FitValue) : Bool :=
  match a, b with
  | .num x, .num y => x < y
  | _, _ => false

/-- The boolean mask of line 140 applied to one row: the `timestamp` cell
must satisfy both bounds; a NaN cell fails the mask. -/
def rowInWindow (cols : List String) (r : List (Option FitValue))
    (s e : FitValue) : Bool :=
  match r.get? (cols.indexOf kTimestamp) with
  | some (some v) => fitGE v s && fitLT v e
  | _ => false

/-- Lines 137-140: build the table, forward-fill it, and keep the rows in
the half-open `[start, end)` window. -/
def build_trimmed_dataframe (td : List Dict) (s e : FitValue) : DataFrame :=
  let df := fillnaPad (pdDataFrame td)
  { cols := df.cols, rows := df.rows.filter (fun r => rowInWindow df.cols r s e) }

/-- The Python value of `get_video_uuid`'s result as used downstream. -/
def pyUuid : Option String → FitValue
  | some u => .str u
  | none => .none_

/-- Embedding of `get_telemetry_dataframe` (lines 110-140).  `video_uuid`
is the identifier `get_video_uuid` extracts from the video (both calls in
the source read the same file and agree). -/
def get_telemetry_dataframe (video_uuid : Option String)
    (listing : List (String × List FitMessage)) : PyR DataFrame :=
  match get_fit_file_for_video (pyUuid video_uuid) listing with
  | .exn e => .exn e
  | .diverge => .diverge
  | .ok (fit_file, ceOpt, tdOpt) =>
    match video_uuid with
    | none => .exn .ioError
    | some u =>
      match fit_file with
      | none => .exn .fileNotFoundError
      | some _ =>
        match ceOpt, tdOpt with
        | some ce, some td =>
          (boundary_ts ce (FitValue.str u) kVideoStart).bind (fun ts =>
            (boundary_ts ce (FitValue.str u) kVideoEnd).bind (fun te =>
              .ok (build_trimmed_dataframe td ts te)))
        | _, _ => .exn .typeError

/-! ## The box walker (`get_video_uuid`, lines 11-42)

The video file is a byte list.  Each box starts with a 4-byte big-endian
length covering header plus payload, then a 4-byte ASCII name.  The walker
runs one `while f.tell() < file_size` loop per path element
`moov`, `udta`, `uuid`; a matching name breaks out of the loop (leaving the
read position at the start of the matched box's payload, or, for `uuid`,
after the 95 identifier bytes), a non-matching box is skipped by seeking
`value - 8` bytes forward.  `struct.unpack` on fewer than four bytes
raises; a seek to a negative absolute offset raises; the loop itself can
fail to terminate (a box declaring length 0 re-reads itself forever),
which the fuel parameter makes explicit as `PyR.diverge`. -/

/-- Big-endian 4-byte encoding of a length field. -/
def be32 (n : Nat) : List Nat :=
  [n / 16777216 % 256, n / 65536 % 256, n / 256 % 256, n % 256]

/-- The `struct.unpack(">I", f.read(4))` of line 29: `none` models the
`struct.error` raised when fewer than four bytes remain. -/
def read4BE (data : List Nat) (pos : Nat) : Option Nat :=
  match (data.drop pos).take 4 with
  | [b0, b1, b2, b3] => some (b0 * 16777216 + b1 * 65536 + b2 * 256 + b3)
  | _ => none

/-- Byte spelling of the box name `moov`. -/
def moovTag : List Nat := [109, 111, 111, 118]

/-- Byte spelling of the box name `udta`. -/
def udtaTag : List Nat := [117, 100, 116, 97]

/-- Byte spelling of the box name `uuid`. -/
def uuidTag : List Nat := [117, 117, 105, 100]

/-- One `while f.tell() < file_size` loop of lines 28-40, searching for
`target` from byte offset `pos`.  On success returns the new file position
together with the identifier bytes when the matched name was `uuid`.
`f.read` reads at most the remaining bytes, hence the `min` terms. -/
def scanFor (data target : List Nat) : Nat → Nat → PyR (Nat × Option (List Nat))
  | _, 0 => .diverge
  | pos, fuel + 1 =>
    if pos < data.length then
      match read4BE data pos with
      | none => .exn .structError
      | some value =>
        let nameRead := (data.drop (pos + 4)).take 4
        let afterName := pos + 4 + min 4 (data.length - (pos + 4))
        if nameRead = target then
          if nameRead = uuidTag then
            let u := (data.drop afterName).take 95
            .ok (afterName + min 95 (data.length - afterName), some u)
          else .ok (afterName, none)
        else
          let next : Int := (afterName : Int) + (value : Int) - 8
          if next < 0 then .exn .osError
          else scanFor data target next.toNat fuel
    else .ok (pos, none)

/-- The atom path of line 22. -/
def atom_container_names : List (List Nat) := [moovTag, udtaTag, uuidTag]

/-- The `for container_name in atom_container_names` loop of lines 27-40,
threading the file position and the `uuid` variable through the successive
`while` loops. -/
def runAtoms (data : List Nat) :
    List (List Nat) → Nat → Option (List Nat) → Nat → PyR (Option (List Nat))
  | [], _, uuid, _ => .ok uuid
  | t :: ts, pos, uuid, fuel =>
    match scanFor data t pos fuel with
    | .ok (pos', u) =>
      runAtoms data ts pos' (match u with | some x => some x | none => uuid) fuel
    | .exn e => .exn e
    | .diverge => .diverge

/-- Embedding of `get_video_uuid` (lines 11-42): returns the `uuid`
variable, still `None` when no `uuid` box was reached. -/
def get_video_uuid (data : List Nat) (fuel : Nat) : PyR (Option (List Nat)) :=
  runAtoms data atom_container_names 0 none fuel

/-- Syntax tree of a well-formed container used to build test inputs: a box
is a name plus either raw payload bytes or child boxes. -/
inductive Box where
  | leaf (name : List Nat) (payload : List Nat)
  | node (name : List Nat) (children : List Box)

mutual

/-- Serialize one box: 4-byte big-endian length over header plus payload,
the 4-byte name, then the payload. -/
def serializeBox : Box → List Nat
  | .leaf n p => be32 (8 + p.length) ++ n ++ p
  | .node n cs => be32 (8 + (serializeBoxes cs).length) ++ n ++ serializeBoxes cs

/-- Serialize a sequence of sibling boxes. -/
def serializeBoxes : List Box → List Nat
  | [] => []
  | b :: bs => serializeBox b ++ serializeBoxes bs

end

/-- Name of a box. -/
def boxName : Box → List Nat
  | .leaf n _ => n
  | .node n _ => n

/-- Payload bytes of a box (children serialized, for a node). -/
def boxPayload : Box → List Nat
  | .leaf _ p => p
  | .node _ cs => serializeBoxes cs

/-- Well-formed box header: a 4-byte ASCII name and a declared length that
fits the 4-byte big-endian field. -/
def BoxWF (b : Box) : Prop :=
  (boxName b).length = 4 ∧ (∀ x ∈ boxName b, x < 128) ∧
    8 + (boxPayload b).length < 4294967296

instance (b : Box) : Decidable (BoxWF b) := by
  unfold BoxWF
  infer_instance

/-! ## Observation predicates and expected-value functions used in the
theorem statements. -/

/-- Every camera-event dictionary of the list carries the
`camera_file_uuid` key. -/
def eventsKeyedB (ce : List Dict) : Bool :=
  ce.all (fun d => (dictGet d kCfu).isSome)

/-- The dictionary carries all three whitelisted camera-event keys. -/
def threeKeysB (d : Dict) : Bool :=
  (dictGet d kCfu).isSome && (dictGet d kCet).isSome && (dictGet d kTimestamp).isSome

/-- The dictionary carries a numeric `timestamp` value. -/
def hasNumTs (d : Dict) : Bool :=
  match dictGet d kTimestamp with
  | some (.num _) => true
  | _ => false

/-- The record's own timestamp lies in the half-open window `[s, e)`. -/
def tsWindowB (d : Dict) (s e : Int) : Bool :=
  match dictGet d kTimestamp with
  | some (.num t) => decide (s ≤ t) && decide (t < e)
  | _ => false

/-- Every candidate the directory scan actually visits (the `.fit` entries
up to and including the first match) has all camera events keyed with
`camera_file_uuid`. -/
def KeysOkScan (u : FitValue) : List (String × List FitMessage) → Bool
  | [] => true
  | (n, ms) :: rest =>
    if endsWithFit n then
      eventsKeyedB (parse_fit_file ms).1 &&
        (decide (u ∈ eventUuids (parse_fit_file ms).1) || KeysOkScan u rest)
    else KeysOkScan u rest

/-- Forward-fill of a single cell sequence: the last present value so far,
starting from `init`. -/
def padFold (init : Option FitValue) (cells : List (Option FitValue)) : Option FitValue :=
  cells.foldl (fun a v => match v with | some x => some x | none => a) init

/-- Cell `(i, j)` of a data frame. -/
def getCell (df : DataFrame) (i j : Nat) : Option (Option FitValue) :=
  (df.rows.get? i).bind (fun r => r.get? j)

/-! ## Concrete fixtures used by counterexamples and witnesses. -/

def sU : String := "U"

/-- A camera event tagged with the unrelated identifier `X`. -/
def msgEventX : FitMessage :=
  ⟨kCameraEvent, some [⟨kCet, FitValue.str kVideoStart⟩, ⟨kCfu, FitValue.str ("X")⟩,
    ⟨kTimestamp, FitValue.num 1⟩]⟩

/-- A camera event that lacks the `camera_file_uuid` field. -/
def msgEventNoKey : FitMessage :=
  ⟨kCameraEvent, some [⟨kCet, FitValue.str kVideoStart⟩, ⟨kTimestamp, FitValue.num 1⟩]⟩

/-- A camera event carrying the target identifier but neither boundary
event type. -/
def msgOtherU : FitMessage :=
  ⟨kCameraEvent, some [⟨kCet, FitValue.str ("other")⟩, ⟨kCfu, FitValue.str sU⟩,
    ⟨kTimestamp, FitValue.num 5⟩]⟩

/-- A telemetry message with both required position fields. -/
def fsLatLong : List FitField :=
  [⟨kTimestamp, FitValue.num 5⟩, ⟨kLat, FitValue.num 1⟩, ⟨kLong, FitValue.num 2⟩]

def msgLatLong : FitMessage := ⟨"record", some fsLatLong⟩

/-- A telemetry message missing `position_lat`. -/
def msgNoLat : FitMessage :=
  ⟨"record", some [⟨kTimestamp, FitValue.num 6⟩, ⟨kLong, FitValue.num 2⟩]⟩

/-- Directory listing whose single candidate does not carry the target
identifier. -/
def listingX : List (String × List FitMessage) := [("a.fit", [msgEventX])]

/-- Directory listing whose single candidate has a camera event without
`camera_file_uuid`. -/
def listingNoKey : List (String × List FitMessage) := [("a.fit", [msgEventNoKey])]

/-- Directory listing whose candidate matches the identifier `U` but has
no boundary events. -/
def listingOtherU : List (String × List FitMessage) := [("a.fit", [msgOtherU])]

/-- Telemetry records with timestamps 10, 20, 30, 40. -/
def tdWindowEx : List Dict :=
  [[(kTimestamp, FitValue.num 10)], [(kTimestamp, FitValue.num 20)],
   [(kTimestamp, FitValue.num 30)], [(kTimestamp, FitValue.num 40)]]

/-- Records `{t:1, alt:100}`, `{t:2}`, `{t:3}` for the forward-fill
example. -/
def tdFillEx : List Dict :=
  [[(kTimestamp, FitValue.num 1), (kEnhAlt, FitValue.num 100)],
   [(kTimestamp, FitValue.num 2)], [(kTimestamp, FitValue.num 3)]]

/-- The 95-byte identifier payload of the flat-scan counterexample. -/
def cexP : List Nat := List.replicate 95 65

/-- A container whose `moov` box has no `udta` child; a top-level `udta`
box carrying a `uuid` payload follows it. -/
def cexData : List Nat :=
  serializeBoxes [Box.node moovTag [Box.leaf [102, 114, 101, 101] []],
    Box.node udtaTag [Box.leaf uuidTag cexP]]

/-- The 95-byte payload of the happy-path witness container. -/
def witP : List Nat := List.replicate 95 66

def witS1 : List Box := [Box.leaf [102, 114, 101, 101] [1, 2, 3]]
def witS2 : List Box := [Box.leaf [115, 107, 105, 112] [9, 9, 9, 9, 9]]
def witS3 : List Box := [Box.leaf [106, 117, 110, 107] [7]]
def witS5 : List Box := [Box.leaf [116, 97, 105, 108] [5]]
def witS6 : List Box := [Box.leaf [108, 97, 115, 116] [4]]

/-- A well-formed container with the full `moov → udta → uuid` path and
non-matching siblings at every level. -/
def witBoxData : List Nat :=
  serializeBoxes witS1 ++
    serializeBox (Box.node moovTag (witS2 ++
      [Box.node udtaTag (witS3 ++ [Box.leaf uuidTag witP] ++ [])] ++ witS5)) ++
    serializeBoxes witS6

/-- A well-formed container in which no box at all is named `udta`: the
`moov` box is present but its children are unrelated. -/
def witAbsCs : List Box := [Box.leaf [102, 114, 101, 101] [1, 2]]
def witAbsS2 : List Box := [Box.leaf [116, 97, 105, 108] [3]]

def witAbsData : List Nat :=
  serializeBoxes witS1 ++ serializeBox (Box.node moovTag witAbsCs) ++
    serializeBoxes witAbsS2

/-- Two duplicate `video_start` events for the same identifier, with
different timestamps. -/
def dwFirst : Dict :=
  [(kCfu, FitValue.str sU), (kCet, FitValue.str kVideoStart), (kTimestamp, FitValue.num 11)]

def dwSecond : Dict :=
  [(kCfu, FitValue.str sU), (kCet, FitValue.str kVideoStart), (kTimestamp, FitValue.num 22)]

/-- The camera-event dictionary `parse_fit_file` builds from `msgEventX`. -/
def dX : Dict :=
  [(kCet, FitValue.str kVideoStart), (kCfu, FitValue.str ("X")), (kTimestamp, FitValue.num 1)]

/-! ## Helper lemmas about dictionaries and the decoded record lists. -/

theorem dictGet_isSome_of_any (d : Dict) (k : String)
    (h : d.any (fun p => p.1 == k) = true) : (dictGet d k).isSome = true := by
  simp only [dictGet]
  cases hf : List.find? (fun p => p.1 == k) d with
  | none =>
    rw [List.find?_eq_none] at hf
    rw [List.any_eq_true] at h
    obtain ⟨p, hp, he⟩ := h
    exact absurd he (by simpa using hf p hp)
  | some p => simp

theorem dictSet_mem_key (d : Dict) (k : String) (v : FitValue) :
    (dictSet d k v).any (fun p => p.1 == k) = true := by
  unfold dictSet
  by_cases h : d.any (fun p => p.1 == k) = true
  · rw [if_pos h]
    rw [List.any_eq_true] at h ⊢
    obtain ⟨p, hp, he⟩ := h
    refine ⟨(k, v), List.mem_map.mpr ⟨p, hp, ?_⟩, by simp⟩
    simp [he]
  · rw [if_neg h]
    simp [List.any_append]

theorem dictSet_key_mono (d : Dict) (k k' : String) (v : FitValue)
    (h : d.any (fun p => p.1 == k) = true) :
    (dictSet d k' v).any (fun p => p.1 == k) = true := by
  by_cases he : k' = k
  · subst he; exact dictSet_mem_key d k' v
  · unfold dictSet
    by_cases hex : d.any (fun p => p.1 == k') = true
    · rw [if_pos hex]
      rw [List.any_eq_true] at h ⊢
      obtain ⟨p, hp, hpk⟩ := h
      refine ⟨if p.1 == k' then (k', v) else p, List.mem_map.mpr ⟨p, hp, rfl⟩, ?_⟩
      have hpk' : p.1 = k := by simpa using hpk
      rw [if_neg (by simp [hpk']; exact fun hc => he hc.symm)]
      exact hpk
    · rw [if_neg hex]
      simp [List.any_append, h]

theorem buildDict_key_of_field (k : String) (allowed : List String) (hk : k ∈ allowed) :
    ∀ (fs : List FitField) (d0 : Dict),
      (d0.any (fun p => p.1 == k) = true ∨ fs.any (fun f => f.name == k) = true) →
      ((fs.foldl (fun d f => if f.name ∈ allowed then dictSet d f.name f.value else d)
        d0).any (fun p => p.1 == k)) = true := by
  intro fs
  induction fs with
  | nil =>
    intro d0 h
    rcases h with h | h
    · exact h
    · simp at h
  | cons f fs ih =>
    intro d0 h
    simp only [List.foldl_cons]
    rcases h with h | h
    · apply ih; left
      by_cases ha : f.name ∈ allowed
      · rw [if_pos ha]; exact dictSet_key_mono _ _ _ _ h
      · rw [if_neg ha]; exact h
    · by_cases hf : f.name = k
      · apply ih; left
        rw [if_pos (hf ▸ hk)]
        rw [hf]
        exact dictSet_mem_key _ _ _
      · apply ih; right
        rw [List.any_cons] at h
        rcases Bool.or_eq_true_iff.mp h with h1 | h1
        · exact absurd (by simpa using h1) hf
        · exact h1

theorem requiredPresent_eq (d : Dict) :
    requiredPresent d =
      (d.any (fun p => p.1 == kLat) && d.any (fun p => p.1 == kLong)) := by
  simp [requiredPresent, telemetry_required_fields]

/-! ## Lemmas about the comprehensions of the matcher and the boundary
selection. -/

theorem uuids_of_keyed (ce : List Dict)
    (h : ∀ d ∈ ce, (dictGet d kCfu).isSome = true) :
    uuids_of ce = .ok (eventUuids ce) := by
  induction ce with
  | nil => rfl
  | cons d rest ih =>
    have hd := h d (by simp)
    obtain ⟨v, hv⟩ := Option.isSome_iff_exists.mp hd
    have ih' := ih (fun x hx => h x (List.mem_cons_of_mem _ hx))
    simp [uuids_of, hv, ih', PyR.map, eventUuids, List.filterMap_cons]

theorem uuids_of_ok (ce : List Dict) (us : List FitValue)
    (h : uuids_of ce = .ok us) :
    (∀ d ∈ ce, (dictGet d kCfu).isSome = true) ∧ us = eventUuids ce := by
  induction ce generalizing us with
  | nil =>
    simp only [uuids_of, PyR.ok.injEq] at h
    subst h
    exact ⟨by simp, by simp [eventUuids]⟩
  | cons d rest ih =>
    cases hd : dictGet d kCfu with
    | none => simp [uuids_of, hd] at h
    | some v =>
      cases hr : uuids_of rest with
      | ok us' =>
        simp only [uuids_of, hd, hr, PyR.map, PyR.ok.injEq] at h
        obtain ⟨h1, h2⟩ := ih us' hr
        constructor
        · intro x hx
          rcases List.mem_cons.mp hx with rfl | hx
          · simp [hd]
          · exact h1 x hx
        · rw [← h, h2]
          simp [eventUuids, List.filterMap_cons, hd]
      | exn e => simp [uuids_of, hd, hr, PyR.map] at h
      | diverge => simp [uuids_of, hd, hr, PyR.map] at h

theorem boundary_list_keyed (u : FitValue) (ev : String) (ce : List Dict)
    (h : ∀ d ∈ ce, threeKeysB d = true) :
    boundary_list u ev ce = .ok (matchingTs u ev ce) := by
  induction ce with
  | nil => rfl
  | cons d rest ih =>
    have hd := h d (by simp)
    simp only [threeKeysB, Bool.and_eq_true, Option.isSome_iff_exists] at hd
    obtain ⟨⟨⟨v, hv⟩, t, ht⟩, ts, hts⟩ := hd
    have ih' := ih (fun x hx => h x (List.mem_cons_of_mem _ hx))
    by_cases hm : evMatch d u ev
    · have hma := hm.1
      have hmb := hm.2
      simp [boundary_list, hma, hmb, hts, ih', PyR.map, matchingTs,
        List.filterMap_cons, hm]
    · by_cases h1 : v = u
      · subst h1
        have h2 : ¬ t = FitValue.str ev := by
          intro hc
          exact hm ⟨hv, hc ▸ ht⟩
        simp [boundary_list, hv, ht, h2, ih', matchingTs, List.filterMap_cons, hm]
      · simp [boundary_list, hv, h1, ih', matchingTs, List.filterMap_cons, hm]

theorem matchingTs_append (u : FitValue) (ev : String) (l1 l2 : List Dict) :
    matchingTs u ev (l1 ++ l2) = matchingTs u ev l1 ++ matchingTs u ev l2 := by
  simp [matchingTs, List.filterMap_append]

theorem matchingTs_nil_of_no_match (u : FitValue) (ev : String) (ce : List Dict)
    (h : ∀ d ∈ ce, ¬ evMatch d u ev) : matchingTs u ev ce = [] := by
  rw [matchingTs, List.filterMap_eq_nil_iff]
  intro d hd
  rw [if_neg (h d hd)]

theorem parse_telemetry_keys (msgs : List FitMessage) :
    ∀ d ∈ (parse_fit_file msgs).2,
      (dictGet d kLat).isSome = true ∧ (dictGet d kLong).isSome = true := by
  induction msgs with
  | nil => simp [parse_fit_file]
  | cons m rest ih =>
    intro d hd
    cases hm : m.fields with
    | none =>
      simp only [parse_fit_file, hm] at hd
      exact ih d hd
    | some fs =>
      by_cases hn : m.name = kCameraEvent
      · simp only [parse_fit_file, hm, if_pos hn] at hd
        exact ih d hd
      · by_cases hr : requiredPresent (buildDict fs telemetry_allowed_fields) = true
        · simp only [parse_fit_file, hm, if_neg hn, hr, if_true] at hd
          rcases List.mem_cons.mp hd with rfl | hd
          · rw [requiredPresent_eq, Bool.and_eq_true] at hr
            exact ⟨dictGet_isSome_of_any _ _ hr.1, dictGet_isSome_of_any _ _ hr.2⟩
          · exact ih d hd
        · simp only [parse_fit_file, hm, if_neg hn, if_neg hr] at hd
          exact ih d hd

theorem parse_telemetry_mem (msgs : List FitMessage) (m : FitMessage)
    (hm : m ∈ msgs) (fs : List FitField) (hfs : m.fields = some fs)
    (hn : m.name ≠ kCameraEvent)
    (hlat : fs.any (fun f => f.name == kLat) = true)
    (hlong : fs.any (fun f => f.name == kLong) = true) :
    buildDict fs telemetry_allowed_fields ∈ (parse_fit_file msgs).2 := by
  have hreq : requiredPresent (buildDict fs telemetry_allowed_fields) = true := by
    rw [requiredPresent_eq, Bool.and_eq_true]
    constructor
    · exact buildDict_key_of_field kLat telemetry_allowed_fields (by simp [telemetry_allowed_fields])
        fs [] (Or.inr hlat)
    · exact buildDict_key_of_field kLong telemetry_allowed_fields (by simp [telemetry_allowed_fields])
        fs [] (Or.inr hlong)
  induction msgs with
  | nil => simp at hm
  | cons m0 rest ih =>
    rcases List.mem_cons.mp hm with rfl | hmem
    · simp only [parse_fit_file, hfs, if_neg hn, hreq, if_pos]
      exact List.mem_cons_self _ _
    · have hrec := ih hmem
      cases hm0 : m0.fields with
      | none => simpa only [parse_fit_file, hm0] using hrec
      | some fs0 =>
        by_cases hn0 : m0.name = kCameraEvent
        · simpa only [parse_fit_file, hm0, if_pos hn0] using hrec
        · by_cases hr0 : requiredPresent (buildDict fs0 telemetry_allowed_fields) = true
          · simp only [parse_fit_file, hm0, if_neg hn0, hr0, if_true]
            exact List.mem_cons_of_mem _ hrec
          · simpa only [parse_fit_file, hm0, if_neg hn0, if_neg hr0] using hrec

/-! ## Lemmas about the directory scan. -/

theorem fit_scan_keyed_ok (u : FitValue) (listing : List (String × List FitMessage))
    (hk : ∀ p ∈ listing, endsWithFit p.1 = true →
      eventsKeyedB (parse_fit_file p.2).1 = true) :
    ∀ f ce td, ∃ r, fit_scan u listing f ce td = .ok r := by
  induction listing with
  | nil => intro f ce td; exact ⟨(f, ce, td), rfl⟩
  | cons p rest ih =>
    intro f ce td
    obtain ⟨n, ms⟩ := p
    have ih' := ih (fun q hq => hk q (List.mem_cons_of_mem _ hq))
    by_cases hf : endsWithFit n = true
    · have hkd := hk (n, ms) (by simp) hf
      have hks : ∀ d ∈ (parse_fit_file ms).1, (dictGet d kCfu).isSome = true := by
        simpa [eventsKeyedB, List.all_eq_true] using hkd
      have huu := uuids_of_keyed _ hks
      by_cases hmem : u ∈ eventUuids (parse_fit_file ms).1
      · exact ⟨(some n, some (parse_fit_file ms).1, some (parse_fit_file ms).2),
          by simp [fit_scan, hf, huu, hmem]⟩
      · obtain ⟨r, hr⟩ := ih' (some n) (some (parse_fit_file ms).1)
          (some (parse_fit_file ms).2)
        exact ⟨r, by simp [fit_scan, hf, huu, hmem, hr]⟩
    · obtain ⟨r, hr⟩ := ih' (some n) ce td
      exact ⟨r, by simp [fit_scan, hf, hr]⟩

theorem fit_scan_ok_keys (u : FitValue) (listing : List (String × List FitMessage)) :
    ∀ f ce td r, fit_scan u listing f ce td = .ok r → KeysOkScan u listing = true := by
  induction listing with
  | nil => intro f ce td r _; rfl
  | cons p rest ih =>
    intro f ce td r h
    obtain ⟨n, ms⟩ := p
    by_cases hf : endsWithFit n = true
    · cases hu : uuids_of (parse_fit_file ms).1 with
      | ok us =>
        obtain ⟨hkeys, hus⟩ := uuids_of_ok _ _ hu
        have hkb : eventsKeyedB (parse_fit_file ms).1 = true := by
          simpa [eventsKeyedB, List.all_eq_true] using hkeys
        by_cases hmem : u ∈ us
        · simp [KeysOkScan, hf, hkb, hus ▸ hmem]
        · have h' : fit_scan u rest (some n) (some (parse_fit_file ms).1)
              (some (parse_fit_file ms).2) = .ok r := by
            simpa [fit_scan, hf, hu, hmem] using h
          simp [KeysOkScan, hf, hkb, ih _ _ _ _ h']
      | exn e => simp [fit_scan, hf, hu] at h
      | diverge => simp [fit_scan, hf, hu] at h
    · have h' : fit_scan u rest (some n) ce td = .ok r := by
        simpa [fit_scan, hf] using h
      simpa [KeysOkScan, hf] using ih _ _ _ _ h'

/-! ## Claim theorems: record decoding and directory matching. -/

/-- Claim C1.  The claim states that when no `.fit` candidate in the
directory contains the target session identifier, `get_fit_file_for_video`
returns no file (NotFound).  The code initialises `fit_file = None` and the
caller checks `if fit_file is None`, so NotFound is plainly the intent, but
the `for fit_file in os.listdir(...)` loop overwrites the variable with
every directory entry: after an exhausted scan the function returns the
last directory entry together with the last parsed candidate's records.
On the one-candidate directory `listingX` (identifier `X`, target `U`) the
result names `a.fit` as the matched file even though `U` matches nothing. -/
theorem matcher_no_match_returns_last_entry :
    get_fit_file_for_video (FitValue.str sU) listingX = .ok (some ("a.fit"), some [dX], some []) ∧
      FitValue.str sU ∉ eventUuids [dX] ∧
      (some ("a.fit") : Option String) ≠ none := by
  refine ⟨by decide, by decide, by decide⟩

/-- Claim C3.  A decoded non-event record is kept in the telemetry output
iff the message carried both position fields: every output dictionary has
the `position_lat` and `position_long` keys, and every non-`camera_event`
message with fields including both positions contributes its whitelisted
dictionary to the output, whatever other optional fields it carries; the
computation is total, so dropping a record never raises. -/
theorem telemetry_requires_position (msgs : List FitMessage) :
    (∀ d ∈ (parse_fit_file msgs).2,
        (dictGet d kLat).isSome = true ∧ (dictGet d kLong).isSome = true) ∧
    (∀ m ∈ msgs, ∀ fs, m.fields = some fs → m.name ≠ kCameraEvent →
      fs.any (fun f => f.name == kLat) = true →
      fs.any (fun f => f.name == kLong) = true →
      buildDict fs telemetry_allowed_fields ∈ (parse_fit_file msgs).2) :=
  ⟨parse_telemetry_keys msgs,
   fun m hm fs hfs hn hlat hlong => parse_telemetry_mem msgs m hm fs hfs hn hlat hlong⟩

theorem telemetry_requires_position_witness :
    buildDict fsLatLong telemetry_allowed_fields ∈
      (parse_fit_file [msgLatLong, msgNoLat]).2 :=
  (telemetry_requires_position [msgLatLong, msgNoLat]).2 msgLatLong (by decide)
    fsLatLong (by decide) (by decide) (by decide) (by decide)

/-- Claim C7.  With duplicate boundary events for the same identifier and
event type, the `[...][0]` selection of lines 129-135 yields the timestamp
of the first matching record in source order; the duplicate (`d2`) is not
an error. -/
theorem boundary_first_occurrence_wins (A B C : List Dict) (d1 d2 : Dict)
    (u : FitValue) (ev : String) (t1 : FitValue)
    (hkeys : ∀ d ∈ A ++ (d1 :: (B ++ (d2 :: C))), threeKeysB d = true)
    (hA : ∀ d ∈ A, ¬ evMatch d u ev)
    (h1 : evMatch d1 u ev) (h1t : dictGet d1 kTimestamp = some t1)
    (_h2 : evMatch d2 u ev) :
    boundary_ts (A ++ (d1 :: (B ++ (d2 :: C)))) u ev = .ok t1 := by
  have hbl := boundary_list_keyed u ev _ hkeys
  have hmt : matchingTs u ev (A ++ (d1 :: (B ++ (d2 :: C)))) =
      t1 :: matchingTs u ev (B ++ (d2 :: C)) := by
    rw [matchingTs_append, matchingTs_nil_of_no_match u ev A hA]
    simp [matchingTs, List.filterMap_cons, h1, h1t]
  unfold boundary_ts
  rw [hbl, hmt]

theorem boundary_first_occurrence_wins_witness :
    boundary_ts ([] ++ (dwFirst :: ([] ++ (dwSecond :: [])))) (FitValue.str sU)
      kVideoStart = .ok (FitValue.num 11) :=
  boundary_first_occurrence_wins [] [] [] dwFirst dwSecond (FitValue.str sU)
    kVideoStart (FitValue.num 11) (by decide) (by decide) (by decide) (by decide)
    (by decide)

/-- Claim C9.  When the matched candidate's camera events (all carrying the
three whitelisted keys) include the target identifier but none of them is a
`video_start` match — or none is a `video_end` match — the boundary
selection comprehension is empty and `[...][0]` fails: extraction raises
`IndexError`, the failure the spec calls MissingBoundaryEvent, instead of
substituting any default boundary. -/
theorem missing_boundary_index_error (u : String)
    (listing : List (String × List FitMessage)) (f : String) (ce td : List Dict)
    (hscan : get_fit_file_for_video (FitValue.str u) listing =
      .ok (some f, some ce, some td))
    (_hmem : FitValue.str u ∈ eventUuids ce)
    (hkeys : ∀ d ∈ ce, threeKeysB d = true)
    (hmiss : (∀ d ∈ ce, ¬ evMatch d (FitValue.str u) kVideoStart) ∨
             (∀ d ∈ ce, ¬ evMatch d (FitValue.str u) kVideoEnd)) :
    get_telemetry_dataframe (some u) listing = .exn .indexError := by
  have hpy : pyUuid (some u) = FitValue.str u := rfl
  rcases hmiss with hno | hno
  · have hb : boundary_ts ce (FitValue.str u) kVideoStart = .exn .indexError := by
      unfold boundary_ts
      rw [boundary_list_keyed _ _ _ hkeys, matchingTs_nil_of_no_match _ _ _ hno]
    simp [get_telemetry_dataframe, hpy, hscan, hb, PyR.bind]
  · cases hms : matchingTs (FitValue.str u) kVideoStart ce with
    | nil =>
      have hb : boundary_ts ce (FitValue.str u) kVideoStart = .exn .indexError := by
        unfold boundary_ts
        rw [boundary_list_keyed _ _ _ hkeys, hms]
      simp [get_telemetry_dataframe, hpy, hscan, hb, PyR.bind]
    | cons t ts =>
      have hbs : boundary_ts ce (FitValue.str u) kVideoStart = .ok t := by
        unfold boundary_ts
        rw [boundary_list_keyed _ _ _ hkeys, hms]
      have hbe : boundary_ts ce (FitValue.str u) kVideoEnd = .exn .indexError := by
        unfold boundary_ts
        rw [boundary_list_keyed _ _ _ hkeys, matchingTs_nil_of_no_match _ _ _ hno]
      simp [get_telemetry_dataframe, hpy, hscan, hbs, hbe, PyR.bind]

theorem missing_boundary_index_error_witness :
    get_telemetry_dataframe (some sU) listingOtherU = .exn .indexError :=
  missing_boundary_index_error sU listingOtherU ("a.fit")
    [[(kCet, FitValue.str ("other")), (kCfu, FitValue.str sU),
      (kTimestamp, FitValue.num 5)]] []
    (by decide) (by decide) (by decide) (Or.inl (by decide))

/-- Claim C8 is refuted as stated: on a video with no embedded identifier,
extraction is claimed to fail with the NoSessionIdentifier failure
(`IOError`) regardless of the directory contents, but the matcher scan runs
first, and on the directory `listingNoKey` — whose single candidate has a
camera event without the `camera_file_uuid` field — the scan's unconditional
lookup raises a generic `KeyError` before the identifier check is ever
reached. -/
theorem no_uuid_keyerror_cex :
    get_telemetry_dataframe none listingNoKey = .exn .keyError ∧
      PyExn.keyError ≠ PyExn.ioError := by
  refine ⟨by decide, by decide⟩

/-- Claim C8 (amended).  Provided every scanned `.fit` candidate's camera
events carry the `camera_file_uuid` key — so the matcher scan cannot raise —
extraction on a video with no embedded identifier fails with `IOError`
(`'Video does not contain the target uuid'`), the specific
NoSessionIdentifier failure, whatever else the directory contains. -/
theorem no_uuid_raises_ioerror (listing : List (String × List FitMessage))
    (hk : ∀ p ∈ listing, endsWithFit p.1 = true →
      eventsKeyedB (parse_fit_file p.2).1 = true) :
    get_telemetry_dataframe none listing = .exn .ioError := by
  obtain ⟨r, hr⟩ := fit_scan_keyed_ok FitValue.none_ listing hk none none none
  obtain ⟨ff, ceo, tdo⟩ := r
  have hr' : get_fit_file_for_video (pyUuid none) listing = .ok (ff, ceo, tdo) := hr
  simp [get_telemetry_dataframe, hr']

theorem no_uuid_raises_ioerror_witness :
    get_telemetry_dataframe none listingX = .exn .ioError :=
  no_uuid_raises_ioerror listingX (by decide)

/-- Claim C10.  The matcher's unconditional `camera_event['camera_file_uuid']`
lookup raises `KeyError` on the directory `listingNoKey`, whose candidate
decodes a camera event without that field, instead of treating the
identifier as absent; and whenever the scan completes without an exception,
every camera event of every candidate it visited (up to and including the
first match) carried the `camera_file_uuid` field. -/
theorem matcher_keyerror_on_missing_field :
    get_fit_file_for_video (FitValue.str sU) listingNoKey = .exn .keyError ∧
    ∀ (u : FitValue) (listing : List (String × List FitMessage))
      (r : Option String × Option (List Dict) × Option (List Dict)),
        get_fit_file_for_video u listing = .ok r → KeysOkScan u listing = true := by
  refine ⟨by decide, ?_⟩
  intro u listing r h
  exact fit_scan_ok_keys u listing none none none r h

theorem matcher_keyerror_on_missing_field_witness :
    KeysOkScan (FitValue.str sU) listingX = true :=
  matcher_keyerror_on_missing_field.2 (FitValue.str sU) listingX
    (some ("a.fit"), some [dX], some []) (by decide)

/-! ## Lemmas about the forward fill and the window filter. -/

theorem padRows_length (rows : List (List (Option FitValue)))
    (carry : List (Option FitValue)) :
    (padRows rows carry).length = rows.length := by
  induction rows generalizing carry with
  | nil => rfl
  | cons r rs ih => simp [padRows, ih]

theorem padFold_append_some (init : Option FitValue) (l : List (Option FitValue))
    (x : FitValue) : padFold init (l ++ [some x]) = some x := by
  simp [padFold, List.foldl_append]

theorem padRows_cell (rows : List (List (Option FitValue))) :
    ∀ (carry : List (Option FitValue)),
      (∀ r ∈ rows, r.length = carry.length) → ∀ (i j : Nat),
      i < rows.length → j < carry.length →
      ((padRows rows carry).get? i).bind (fun r => r.get? j) =
        some (padFold ((carry.get? j).join)
          ((rows.take (i + 1)).map (fun r => (r.get? j).join))) := by
  induction rows with
  | nil => intro carry _ i j hi _; simp at hi
  | cons r rs ih =>
    intro carry hlen i j hi hj
    have hr : r.length = carry.length := hlen r (List.mem_cons_self _ _)
    have hv : r.get? j = some (r.get ⟨j, hr ▸ hj⟩) := List.get?_eq_get _
    have hc : carry.get? j = some (carry.get ⟨j, hj⟩) := List.get?_eq_get _
    have hzlen : (List.zipWith
        (fun v c => match v with | some x => some x | none => c) r carry).length =
        carry.length := by
      simp [List.length_zipWith, hr]
    have hz : (List.zipWith
        (fun v c => match v with | some x => some x | none => c) r carry).get? j =
        some (match r.get ⟨j, hr ▸ hj⟩ with
          | some x => some x
          | none => carry.get ⟨j, hj⟩) := by
      rw [List.get?_zipWith', hv, hc]
      rfl
    cases i with
    | zero =>
      have h0 : ((padRows (r :: rs) carry).get? 0).bind (fun r => r.get? j) =
          (List.zipWith
            (fun v c => match v with | some x => some x | none => c) r carry).get? j :=
        rfl
      rw [h0, hz]
      have htake : (r :: rs).take 1 = [r] := rfl
      rw [htake]
      simp only [List.map_cons, List.map_nil, padFold, List.foldl_cons, List.foldl_nil,
        hv, hc]
      rfl
    | succ k =>
      have hstep : ((padRows (r :: rs) carry).get? (k + 1)).bind (fun r => r.get? j) =
          ((padRows rs (List.zipWith
            (fun v c => match v with | some x => some x | none => c) r carry)).get? k).bind
            (fun r => r.get? j) := rfl
      rw [hstep]
      have hlen' : ∀ x ∈ rs, x.length = (List.zipWith
          (fun v c => match v with | some x => some x | none => c) r carry).length := by
        intro x hx
        rw [hzlen]
        exact hlen x (List.mem_cons_of_mem _ hx)
      have hk : k < rs.length := by
        simpa using hi
      have hj' : j < (List.zipWith
          (fun v c => match v with | some x => some x | none => c) r carry).length := by
        rw [hzlen]; exact hj
      rw [ih _ hlen' k j hk hj']
      rw [hz]
      have htake : (r :: rs).take (k + 1 + 1) = r :: rs.take (k + 1) := rfl
      rw [htake]
      simp only [List.map_cons, padFold, List.foldl_cons, hv, hc, Option.join]
      rfl

theorem pdDataFrame_row_len (ds : List Dict) :
    ∀ r ∈ (pdDataFrame ds).rows, r.length = (dfCols ds).length := by
  intro r hr
  simp only [pdDataFrame] at hr
  obtain ⟨d, _, rfl⟩ := List.mem_map.mp hr
  simp

theorem pdDataFrame_row (ds : List Dict) (i : Nat) (hi : i < ds.length) :
    (pdDataFrame ds).rows.get? i =
      some ((dfCols ds).map (fun c => dictGet (ds.get ⟨i, hi⟩) c)) := by
  simp only [pdDataFrame]
  rw [List.get?_map, List.get?_eq_get hi]
  rfl

theorem map_dictGet_at_indexOf (cols : List String) (d : Dict) (c : String)
    (hc : c ∈ cols) :
    (cols.map (fun c0 => dictGet d c0)).get? (cols.indexOf c) = some (dictGet d c) := by
  rw [List.get?_map, List.indexOf_get? hc]
  rfl

theorem foldl_addKey_mem (ks : List String) :
    ∀ (a : List String) (k : String), (k ∈ a ∨ k ∈ ks) →
      k ∈ ks.foldl (fun a k => if k ∈ a then a else a ++ [k]) a := by
  induction ks with
  | nil =>
    intro a k h
    rcases h with h | h
    · exact h
    · simp at h
  | cons k0 ks ih =>
    intro a k h
    simp only [List.foldl_cons]
    rcases h with h | h
    · apply ih
      left
      by_cases h0 : k0 ∈ a
      · rw [if_pos h0]; exact h
      · rw [if_neg h0]; exact List.mem_append_left _ h
    · rcases List.mem_cons.mp h with rfl | h
      · apply ih
        left
        by_cases h0 : k ∈ a
        · rw [if_pos h0]; exact h0
        · rw [if_neg h0]; exact List.mem_append_right _ (by simp)
      · exact ih _ _ (Or.inr h)

theorem dfCols_mem_aux (k : String) : ∀ (ds : List Dict) (a : List String),
    (k ∈ a ∨ ∃ d ∈ ds, k ∈ d.map Prod.fst) →
    k ∈ ds.foldl
      (fun a d => (d.map Prod.fst).foldl (fun a k => if k ∈ a then a else a ++ [k]) a)
      a := by
  intro ds
  induction ds with
  | nil =>
    intro a h
    rcases h with h | ⟨d, hd, _⟩
    · exact h
    · simp at hd
  | cons d0 ds ih =>
    intro a h
    simp only [List.foldl_cons]
    rcases h with h | ⟨d, hd, hkd⟩
    · exact ih _ (Or.inl (foldl_addKey_mem _ _ _ (Or.inl h)))
    · rcases List.mem_cons.mp hd with rfl | hd
      · exact ih _ (Or.inl (foldl_addKey_mem _ _ _ (Or.inr hkd)))
      · exact ih _ (Or.inr ⟨d, hd, hkd⟩)

theorem dfCols_mem (ds : List Dict) (d : Dict) (hd : d ∈ ds) (k : String)
    (hk : k ∈ d.map Prod.fst) : k ∈ dfCols ds :=
  dfCols_mem_aux k ds [] (Or.inr ⟨d, hd, hk⟩)

theorem mem_keys_of_dictGet (d : Dict) (k : String) (v : FitValue)
    (h : dictGet d k = some v) : k ∈ d.map Prod.fst := by
  unfold dictGet at h
  cases hf : d.find? (fun p => p.1 == k) with
  | none => rw [hf] at h; simp at h
  | some p =>
    have hm := List.mem_of_find?_eq_some hf
    have hp : p.1 = k := by simpa using List.find?_some hf
    rw [← hp]
    exact List.mem_map_of_mem Prod.fst hm

theorem hasNumTs_elim (d : Dict) (h : hasNumTs d = true) :
    ∃ t : Int, dictGet d kTimestamp = some (FitValue.num t) := by
  unfold hasNumTs at h
  cases hdt : dictGet d kTimestamp with
  | none => rw [hdt] at h; simp at h
  | some v =>
    cases v with
    | num t => exact ⟨t, rfl⟩
    | str s => rw [hdt] at h; simp at h
    | none_ => rw [hdt] at h; simp at h

theorem filter_eq_zip_filter {α β : Type} (p : α → Bool) (q : β → Bool) :
    ∀ {l : List α} {m : List β}, List.Forall₂ (fun a b => p a = q b) l m →
      l.filter p = ((l.zip m).filter (fun x => q x.2)).map Prod.fst := by
  intro l m h
  induction h with
  | nil => rfl
  | @cons a b l' m' hab _ ih =>
    by_cases hq : q b = true
    · simp [List.filter_cons, List.zip_cons_cons, hq, hab.trans hq, ih]
    · have hq' : q b = false := by
        revert hq; cases q b <;> simp
      simp [List.filter_cons, List.zip_cons_cons, hq', hab.trans hq', ih]

/-! ## Claim theorems: forward fill and window trimming. -/

/-- Claim C6.  After `df.fillna(method="pad")`, cell `(i, j)` holds the
most recent value at or above row `i` in column `j` of the raw table
(`padFold none` of the column prefix): a missing field takes the value of
the most recent prior record that had one, and stays absent when no prior
record did — no backward fill. -/
theorem fillna_pad_forward_fill (ds : List Dict) (i j : Nat)
    (hi : i < ds.length) (hj : j < (dfCols ds).length) :
    getCell (fillnaPad (pdDataFrame ds)) i j =
      some (padFold none (((pdDataFrame ds).rows.take (i + 1)).map
        (fun r => (r.get? j).join))) := by
  have hlen : ∀ r ∈ (pdDataFrame ds).rows,
      r.length = (List.replicate (dfCols ds).length (none : Option FitValue)).length := by
    intro r hr
    rw [List.length_replicate]
    exact pdDataFrame_row_len ds r hr
  have hi' : i < (pdDataFrame ds).rows.length := by
    simpa [pdDataFrame] using hi
  have hj' : j < (List.replicate (dfCols ds).length (none : Option FitValue)).length := by
    simpa using hj
  have h := padRows_cell (pdDataFrame ds).rows _ hlen i j hi' hj'
  have h0 : getCell (fillnaPad (pdDataFrame ds)) i j =
      ((padRows (pdDataFrame ds).rows
        (List.replicate (dfCols ds).length none)).get? i).bind (fun r => r.get? j) := rfl
  rw [h0, h]
  have hrepl : ((List.replicate (dfCols ds).length (none : Option FitValue)).get? j).join
      = none := by
    have hsome : (List.replicate (dfCols ds).length (none : Option FitValue)).get? j =
        some none := by
      rw [List.get?_eq_getElem?]
      simp [List.getElem?_replicate, hj]
    rw [hsome]
    rfl
  rw [hrepl]

theorem fillna_pad_forward_fill_witness :
    getCell (fillnaPad (pdDataFrame tdFillEx)) 2 1 = some (some (FitValue.num 100)) := by
  have h := fillna_pad_forward_fill tdFillEx 2 1 (by decide) (by decide)
  rw [h]
  decide

/-- Claim C2.  With every telemetry record carrying a numeric timestamp,
the trimmed table of lines 137-140 retains exactly the (forward-filled)
rows whose record timestamp `t` satisfies `start ≤ t < end` — start is
kept, end is dropped. -/
theorem trim_halfopen_window (td : List Dict) (s e : Int)
    (H : ∀ d ∈ td, hasNumTs d = true) :
    (build_trimmed_dataframe td (FitValue.num s) (FitValue.num e)).rows =
      ((((fillnaPad (pdDataFrame td)).rows.zip td).filter
        (fun x => tsWindowB x.2 s e)).map Prod.fst) := by
  have hlenP : (fillnaPad (pdDataFrame td)).rows.length = td.length := by
    have h1 : (fillnaPad (pdDataFrame td)).rows.length =
        (pdDataFrame td).rows.length := padRows_length _ _
    rw [h1]
    simp [pdDataFrame]
  have hforall : List.Forall₂
      (fun (a : List (Option FitValue)) (b : Dict) =>
        rowInWindow (dfCols td) a (FitValue.num s) (FitValue.num e) = tsWindowB b s e)
      (fillnaPad (pdDataFrame td)).rows td := by
    rw [List.forall₂_iff_get]
    refine ⟨hlenP, ?_⟩
    intro i h1 h2
    have hd : td.get ⟨i, h2⟩ ∈ td := List.get_mem td i h2
    obtain ⟨t, ht⟩ := hasNumTs_elim _ (H _ hd)
    have hcmem : kTimestamp ∈ dfCols td :=
      dfCols_mem td _ hd kTimestamp (mem_keys_of_dictGet _ _ _ ht)
    have hj : (dfCols td).indexOf kTimestamp < (dfCols td).length :=
      List.indexOf_lt_length.mpr hcmem
    have hi' : i < (pdDataFrame td).rows.length := by
      simpa [pdDataFrame] using h2
    have hcell := padRows_cell (pdDataFrame td).rows
      (List.replicate (dfCols td).length none)
      (fun r hr => by rw [List.length_replicate]; exact pdDataFrame_row_len td r hr)
      i ((dfCols td).indexOf kTimestamp) hi' (by simpa using hj)
    have hpre : ((pdDataFrame td).rows.take (i + 1)).map
        (fun r => (r.get? ((dfCols td).indexOf kTimestamp)).join) =
        (((pdDataFrame td).rows.take i).map
          (fun r => (r.get? ((dfCols td).indexOf kTimestamp)).join)) ++
          [some (FitValue.num t)] := by
      rw [List.take_succ, ← List.get?_eq_getElem?, pdDataFrame_row td i h2,
        List.map_append]
      have hlast : (((dfCols td).map (fun c => dictGet (td.get ⟨i, h2⟩) c)).get?
          ((dfCols td).indexOf kTimestamp)).join = some (FitValue.num t) := by
        rw [map_dictGet_at_indexOf _ _ _ hcmem]
        rw [ht]
        rfl
      simp only [Option.toList_some, List.map_cons, List.map_nil, hlast]
    have hcellval : ((fillnaPad (pdDataFrame td)).rows.get? i).bind
        (fun r => r.get? ((dfCols td).indexOf kTimestamp)) =
        some (some (FitValue.num t)) := by
      have heq : ((fillnaPad (pdDataFrame td)).rows.get? i).bind
          (fun r => r.get? ((dfCols td).indexOf kTimestamp)) =
          ((padRows (pdDataFrame td).rows
            (List.replicate (dfCols td).length none)).get? i).bind
            (fun r => r.get? ((dfCols td).indexOf kTimestamp)) := rfl
      rw [heq, hcell, hpre, padFold_append_some]
    rw [List.get?_eq_get h1] at hcellval
    have hrowcell : ((fillnaPad (pdDataFrame td)).rows.get ⟨i, h1⟩).get?
        ((dfCols td).indexOf kTimestamp) = some (some (FitValue.num t)) := hcellval
    show rowInWindow (dfCols td) _ (FitValue.num s) (FitValue.num e) = _
    rw [rowInWindow, hrowcell, tsWindowB, ht]
    rfl
  have hmain : (build_trimmed_dataframe td (FitValue.num s) (FitValue.num e)).rows =
      (fillnaPad (pdDataFrame td)).rows.filter
        (fun r => rowInWindow (dfCols td) r (FitValue.num s) (FitValue.num e)) := rfl
  rw [hmain]
  exact filter_eq_zip_filter _ _ hforall

theorem trim_halfopen_window_witness :
    (build_trimmed_dataframe tdWindowEx (FitValue.num 20) (FitValue.num 40)).rows =
      [[some (FitValue.num 20)], [some (FitValue.num 30)]] := by
  have h := trim_halfopen_window tdWindowEx 20 40 (by decide)
  rw [h]
  decide

/-! ## Lemmas about the box walker. -/

theorem be32_length (n : Nat) : (be32 n).length = 4 := rfl

theorem serializeBoxes_append (bs1 bs2 : List Box) :
    serializeBoxes (bs1 ++ bs2) = serializeBoxes bs1 ++ serializeBoxes bs2 := by
  induction bs1 with
  | nil => rfl
  | cons b bs ih => simp [serializeBoxes, ih]

theorem serializeBox_eq (b : Box) :
    serializeBox b = be32 (8 + (boxPayload b).length) ++ boxName b ++ boxPayload b := by
  cases b <;> rfl

theorem serializeBox_length (b : Box) (h4 : (boxName b).length = 4) :
    (serializeBox b).length = 8 + (boxPayload b).length := by
  rw [serializeBox_eq]
  simp [be32_length, h4]
  omega

theorem read4BE_at (pre rest : List Nat) (v : Nat) (hv : v < 4294967296) :
    read4BE (pre ++ (be32 v ++ rest)) pre.length = some v := by
  unfold read4BE
  rw [List.drop_left]
  have h4 : (be32 v ++ rest).take 4 = be32 v := List.take_left' rfl
  rw [h4]
  show some (v / 16777216 % 256 * 16777216 + v / 65536 % 256 * 65536 +
    v / 256 % 256 * 256 + v % 256) = some v
  congr 1
  omega

theorem scanFor_step_skip (pre rest : List Nat) (b : Box) (t : List Nat) (fuel : Nat)
    (hwf : BoxWF b) (hne : boxName b ≠ t) :
    scanFor (pre ++ serializeBox b ++ rest) t pre.length (fuel + 1) =
      scanFor (pre ++ serializeBox b ++ rest) t
        (pre.length + (serializeBox b).length) fuel := by
  obtain ⟨h4, _, hlt⟩ := hwf
  have hshape : pre ++ serializeBox b ++ rest =
      pre ++ (be32 (8 + (boxPayload b).length) ++
        (boxName b ++ (boxPayload b ++ rest))) := by
    rw [serializeBox_eq]
    simp [List.append_assoc]
  have hlenD : (pre ++ serializeBox b ++ rest).length =
      pre.length + 8 + (boxPayload b).length + rest.length := by
    simp [serializeBox_length b h4]
    omega
  have hread : read4BE (pre ++ serializeBox b ++ rest) pre.length =
      some (8 + (boxPayload b).length) := by
    rw [hshape]
    exact read4BE_at _ _ _ hlt
  have hname : ((pre ++ serializeBox b ++ rest).drop (pre.length + 4)).take 4 =
      boxName b := by
    rw [hshape]
    have hsh2 : pre ++ (be32 (8 + (boxPayload b).length) ++
        (boxName b ++ (boxPayload b ++ rest))) =
        (pre ++ be32 (8 + (boxPayload b).length)) ++
          (boxName b ++ (boxPayload b ++ rest)) := by
      simp [List.append_assoc]
    rw [hsh2, List.drop_left' (by simp [be32_length]), List.take_left' h4]
  have hpos : pre.length < (pre ++ serializeBox b ++ rest).length := by
    rw [hlenD]; omega
  have hmin4 : pre.length + 4 +
      min 4 ((pre ++ serializeBox b ++ rest).length - (pre.length + 4)) =
      pre.length + 8 := by
    rw [hlenD]; omega
  simp only [scanFor, if_pos hpos, hread, hname, if_neg hne]
  rw [hmin4]
  have hnn : ¬(((pre.length + 8 : Nat) : Int) +
      ((8 + (boxPayload b).length : Nat) : Int) - 8 < 0) := by
    omega
  rw [if_neg hnn]
  have hnat : ((((pre.length + 8 : Nat) : Int) +
      ((8 + (boxPayload b).length : Nat) : Int) - 8)).toNat =
      pre.length + (serializeBox b).length := by
    rw [serializeBox_length b h4]
    omega
  rw [hnat]

theorem scanFor_found (pre rest : List Nat) (b : Box) (fuel : Nat)
    (hwf : BoxWF b) (hne : boxName b ≠ uuidTag) :
    scanFor (pre ++ serializeBox b ++ rest) (boxName b) pre.length (fuel + 1) =
      .ok (pre.length + 8, none) := by
  obtain ⟨h4, _, hlt⟩ := hwf
  have hshape : pre ++ serializeBox b ++ rest =
      pre ++ (be32 (8 + (boxPayload b).length) ++
        (boxName b ++ (boxPayload b ++ rest))) := by
    rw [serializeBox_eq]
    simp [List.append_assoc]
  have hlenD : (pre ++ serializeBox b ++ rest).length =
      pre.length + 8 + (boxPayload b).length + rest.length := by
    simp [serializeBox_length b h4]
    omega
  have hread : read4BE (pre ++ serializeBox b ++ rest) pre.length =
      some (8 + (boxPayload b).length) := by
    rw [hshape]
    exact read4BE_at _ _ _ hlt
  have hname : ((pre ++ serializeBox b ++ rest).drop (pre.length + 4)).take 4 =
      boxName b := by
    rw [hshape]
    have hsh2 : pre ++ (be32 (8 + (boxPayload b).length) ++
        (boxName b ++ (boxPayload b ++ rest))) =
        (pre ++ be32 (8 + (boxPayload b).length)) ++
          (boxName b ++ (boxPayload b ++ rest)) := by
      simp [List.append_assoc]
    rw [hsh2, List.drop_left' (by simp [be32_length]), List.take_left' h4]
  have hpos : pre.length < (pre ++ serializeBox b ++ rest).length := by
    rw [hlenD]; omega
  have hmin4 : pre.length + 4 +
      min 4 ((pre ++ serializeBox b ++ rest).length - (pre.length + 4)) =
      pre.length + 8 := by
    rw [hlenD]; omega
  simp only [scanFor, if_pos hpos, hread, hname, if_pos rfl, if_neg hne, if_true]
  rw [hmin4]

theorem scanFor_found_uuid (pre rest P : List Nat) (fuel : Nat) (hP : P.length = 95) :
    scanFor (pre ++ serializeBox (Box.leaf uuidTag P) ++ rest) uuidTag
      pre.length (fuel + 1) = .ok (pre.length + 8 + 95, some P) := by
  have h4 : (boxName (Box.leaf uuidTag P)).length = 4 := rfl
  have hlt : 8 + (boxPayload (Box.leaf uuidTag P)).length < 4294967296 := by
    show 8 + P.length < 4294967296
    omega
  have hshape : pre ++ serializeBox (Box.leaf uuidTag P) ++ rest =
      pre ++ (be32 (8 + P.length) ++ (uuidTag ++ (P ++ rest))) := by
    rw [serializeBox_eq]
    simp [boxPayload, boxName, List.append_assoc]
  have hlenD : (pre ++ serializeBox (Box.leaf uuidTag P) ++ rest).length =
      pre.length + 8 + P.length + rest.length := by
    simp [serializeBox_length _ h4, boxPayload]
    omega
  have hread : read4BE (pre ++ serializeBox (Box.leaf uuidTag P) ++ rest) pre.length =
      some (8 + P.length) := by
    rw [hshape]
    exact read4BE_at _ _ _ (by omega)
  have hname : ((pre ++ serializeBox (Box.leaf uuidTag P) ++ rest).drop
      (pre.length + 4)).take 4 = uuidTag := by
    rw [hshape]
    have hsh2 : pre ++ (be32 (8 + P.length) ++ (uuidTag ++ (P ++ rest))) =
        (pre ++ be32 (8 + P.length)) ++ (uuidTag ++ (P ++ rest)) := by
      simp [List.append_assoc]
    rw [hsh2, List.drop_left' (by simp [be32_length]),
      List.take_left' (show uuidTag.length = 4 from rfl)]
  have hpos : pre.length < (pre ++ serializeBox (Box.leaf uuidTag P) ++ rest).length := by
    rw [hlenD]; omega
  have hmin4 : pre.length + 4 +
      min 4 ((pre ++ serializeBox (Box.leaf uuidTag P) ++ rest).length -
        (pre.length + 4)) = pre.length + 8 := by
    rw [hlenD]; omega
  have hdropu : (pre ++ serializeBox (Box.leaf uuidTag P) ++ rest).drop
      (pre.length + 8) = P ++ rest := by
    rw [hshape]
    have hsh3 : pre ++ (be32 (8 + P.length) ++ (uuidTag ++ (P ++ rest))) =
        ((pre ++ be32 (8 + P.length)) ++ uuidTag) ++ (P ++ rest) := by
      simp [List.append_assoc]
    rw [hsh3]
    exact List.drop_left' (by simp [be32_length, uuidTag])
  have hmin95 : min 95 ((pre ++ serializeBox (Box.leaf uuidTag P) ++ rest).length -
      (pre.length + 8)) = 95 := by
    rw [hlenD]; omega
  simp only [scanFor, if_pos hpos, hread, hname, if_pos rfl, if_true]
  rw [hmin4, hdropu, List.take_left' hP, hmin95]

theorem scanFor_exhaust (data t : List Nat) (pos fuel : Nat) (h : data.length ≤ pos) :
    scanFor data t pos (fuel + 1) = .ok (pos, none) := by
  simp [scanFor, Nat.not_lt.mpr h]

theorem scanFor_skip_boxes (t : List Nat) (bs : List Box) :
    ∀ (pre rest : List Nat) (fuel : Nat),
      (∀ b ∈ bs, BoxWF b) → (∀ b ∈ bs, boxName b ≠ t) →
      scanFor (pre ++ serializeBoxes bs ++ rest) t pre.length (fuel + bs.length) =
        scanFor (pre ++ serializeBoxes bs ++ rest) t
          (pre.length + (serializeBoxes bs).length) fuel := by
  induction bs with
  | nil =>
    intro pre rest fuel _ _
    simp [serializeBoxes]
  | cons b bs ih =>
    intro pre rest fuel hwf hne
    have hassoc : pre ++ serializeBoxes (b :: bs) ++ rest =
        pre ++ serializeBox b ++ (serializeBoxes bs ++ rest) := by
      simp [serializeBoxes, List.append_assoc]
    have hfl : fuel + (b :: bs).length = fuel + bs.length + 1 := by
      simp [List.length_cons]
      omega
    rw [hassoc, hfl]
    rw [scanFor_step_skip pre (serializeBoxes bs ++ rest) b t (fuel + bs.length)
      (hwf b (List.mem_cons_self _ _)) (hne b (List.mem_cons_self _ _))]
    have hassoc2 : pre ++ serializeBox b ++ (serializeBoxes bs ++ rest) =
        (pre ++ serializeBox b) ++ serializeBoxes bs ++ rest := by
      simp [List.append_assoc]
    rw [hassoc2]
    have hlen1 : pre.length + (serializeBox b).length = (pre ++ serializeBox b).length := by
      simp
    rw [hlen1]
    rw [ih (pre ++ serializeBox b) rest fuel
      (fun x hx => hwf x (List.mem_cons_of_mem _ hx))
      (fun x hx => hne x (List.mem_cons_of_mem _ hx))]
    have hlen2 : (pre ++ serializeBox b).length + (serializeBoxes bs).length =
        pre.length + (serializeBoxes (b :: bs)).length := by
      simp [serializeBoxes]
      omega
    rw [hlen2]

theorem moovTag_length : moovTag.length = 4 := rfl

theorem udtaTag_length : udtaTag.length = 4 := rfl

theorem scanFor_find_in_row (t : List Nat) (bs : List Box) (b : Box)
    (pre rest : List Nat) (fuel : Nat)
    (hwf : ∀ x ∈ bs, BoxWF x) (hne : ∀ x ∈ bs, boxName x ≠ t)
    (hwfb : BoxWF b) (hbt : boxName b = t) (htu : t ≠ uuidTag)
    (hfuel : bs.length + 1 ≤ fuel) :
    scanFor (pre ++ serializeBoxes bs ++ (serializeBox b ++ rest)) t pre.length fuel =
      .ok (pre.length + (serializeBoxes bs).length + 8, none) := by
  have hdec : fuel = fuel - 1 - bs.length + 1 + bs.length := by omega
  rw [hdec]
  rw [scanFor_skip_boxes t bs pre (serializeBox b ++ rest) (fuel - 1 - bs.length + 1)
    hwf hne]
  have eassoc : pre ++ serializeBoxes bs ++ (serializeBox b ++ rest) =
      (pre ++ serializeBoxes bs) ++ serializeBox b ++ rest := by
    simp [List.append_assoc]
  have elen : pre.length + (serializeBoxes bs).length =
      (pre ++ serializeBoxes bs).length := by simp
  rw [eassoc, elen, ← hbt]
  exact scanFor_found _ _ b _ hwfb (by rw [hbt]; exact htu)

theorem scanFor_find_uuid_in_row (bs : List Box) (P : List Nat) (pre rest : List Nat)
    (fuel : Nat) (hwf : ∀ x ∈ bs, BoxWF x) (hne : ∀ x ∈ bs, boxName x ≠ uuidTag)
    (hP : P.length = 95) (hfuel : bs.length + 1 ≤ fuel) :
    scanFor (pre ++ serializeBoxes bs ++ (serializeBox (Box.leaf uuidTag P) ++ rest))
      uuidTag pre.length fuel =
      .ok (pre.length + (serializeBoxes bs).length + 8 + 95, some P) := by
  have hdec : fuel = fuel - 1 - bs.length + 1 + bs.length := by omega
  rw [hdec]
  rw [scanFor_skip_boxes uuidTag bs pre (serializeBox (Box.leaf uuidTag P) ++ rest)
    (fuel - 1 - bs.length + 1) hwf hne]
  have eassoc : pre ++ serializeBoxes bs ++ (serializeBox (Box.leaf uuidTag P) ++ rest) =
      (pre ++ serializeBoxes bs) ++ serializeBox (Box.leaf uuidTag P) ++ rest := by
    simp [List.append_assoc]
  have elen : pre.length + (serializeBoxes bs).length =
      (pre ++ serializeBoxes bs).length := by simp
  rw [eassoc, elen]
  exact scanFor_found_uuid _ _ P _ hP

theorem scanFor_exhaust_row (t : List Nat) (bs : List Box) (pre : List Nat) (fuel : Nat)
    (hwf : ∀ x ∈ bs, BoxWF x) (hne : ∀ x ∈ bs, boxName x ≠ t)
    (hfuel : bs.length + 1 ≤ fuel) :
    scanFor (pre ++ serializeBoxes bs) t pre.length fuel =
      .ok ((pre ++ serializeBoxes bs).length, none) := by
  have hdec : fuel = fuel - 1 - bs.length + 1 + bs.length := by omega
  rw [hdec]
  have h1 := scanFor_skip_boxes t bs pre [] (fuel - 1 - bs.length + 1) hwf hne
  rw [List.append_nil] at h1
  rw [h1]
  have h2 := scanFor_exhaust (pre ++ serializeBoxes bs) t
    (pre.length + (serializeBoxes bs).length) (fuel - 1 - bs.length) (by simp)
  rw [h2]
  simp

/-! ## Claim theorems: the box walker. -/

/-- Claim C4.  On a well-formed container whose boxes carry correct
big-endian lengths and in which the nested path `moov → udta → uuid` is
present — with arbitrary non-matching sibling boxes `S1` before `moov`,
`S2` before `udta` and `S3` before `uuid`, skipped purely by their declared
lengths — `get_video_uuid` returns exactly the 95-byte payload `P`,
without raising and without over- or under-reading. -/
theorem get_video_uuid_locates_payload
    (S1 S2 S3 S4 S5 S6 : List Box) (P : List Nat) (ubox mbox : Box)
    (data : List Nat) (fuel : Nat)
    (hu : ubox = Box.node udtaTag (S3 ++ [Box.leaf uuidTag P] ++ S4))
    (hm : mbox = Box.node moovTag (S2 ++ [ubox] ++ S5))
    (hdata : data = serializeBoxes S1 ++ serializeBox mbox ++ serializeBoxes S6)
    (hwf1 : ∀ b ∈ S1, BoxWF b) (hwf2 : ∀ b ∈ S2, BoxWF b) (hwf3 : ∀ b ∈ S3, BoxWF b)
    (hwfm : BoxWF mbox) (hwfu : BoxWF ubox)
    (hn1 : ∀ b ∈ S1, boxName b ≠ moovTag) (hn2 : ∀ b ∈ S2, boxName b ≠ udtaTag)
    (hn3 : ∀ b ∈ S3, boxName b ≠ uuidTag)
    (hP : P.length = 95) (_hPascii : ∀ x ∈ P, x < 128)
    (hfuel : S1.length + S2.length + S3.length + 3 ≤ fuel) :
    get_video_uuid data fuel = .ok (some P) := by
  have e1 : ([] : List Nat) ++ serializeBoxes S1 ++
      (serializeBox mbox ++ serializeBoxes S6) = data := by
    rw [hdata]
    simp [List.append_assoc]
  have hs1 := scanFor_find_in_row moovTag S1 mbox [] (serializeBoxes S6) fuel hwf1 hn1
    hwfm (by rw [hm]; rfl) (by decide) (by omega)
  rw [e1] at hs1
  simp only [List.length_nil, Nat.zero_add] at hs1
  have e2 : (serializeBoxes S1 ++
        be32 (8 + (serializeBoxes (S2 ++ [ubox] ++ S5)).length) ++ moovTag) ++
      serializeBoxes S2 ++
      (serializeBox ubox ++ (serializeBoxes S5 ++ serializeBoxes S6)) = data := by
    rw [hdata, hm, hu]
    simp [serializeBox, serializeBoxes, serializeBoxes_append, List.append_assoc]
  have hs2 := scanFor_find_in_row udtaTag S2 ubox
    (serializeBoxes S1 ++
      be32 (8 + (serializeBoxes (S2 ++ [ubox] ++ S5)).length) ++ moovTag)
    (serializeBoxes S5 ++ serializeBoxes S6) fuel hwf2 hn2 hwfu
    (by rw [hu]; rfl) (by decide) (by omega)
  rw [e2] at hs2
  have hp2 : (serializeBoxes S1 ++
      be32 (8 + (serializeBoxes (S2 ++ [ubox] ++ S5)).length) ++ moovTag).length =
      (serializeBoxes S1).length + 8 := by
    simp only [List.length_append, be32_length, moovTag_length]
  rw [hp2] at hs2
  have e3 : ((serializeBoxes S1 ++
        be32 (8 + (serializeBoxes (S2 ++ [ubox] ++ S5)).length) ++ moovTag) ++
      serializeBoxes S2 ++
      be32 (8 + (serializeBoxes (S3 ++ [Box.leaf uuidTag P] ++ S4)).length) ++
      udtaTag) ++ serializeBoxes S3 ++
      (serializeBox (Box.leaf uuidTag P) ++
        (serializeBoxes S4 ++ (serializeBoxes S5 ++ serializeBoxes S6))) = data := by
    rw [hdata, hm, hu]
    simp [serializeBox, serializeBoxes, serializeBoxes_append, List.append_assoc]
  have hs3 := scanFor_find_uuid_in_row S3 P
    ((serializeBoxes S1 ++
        be32 (8 + (serializeBoxes (S2 ++ [ubox] ++ S5)).length) ++ moovTag) ++
      serializeBoxes S2 ++
      be32 (8 + (serializeBoxes (S3 ++ [Box.leaf uuidTag P] ++ S4)).length) ++
      udtaTag)
    (serializeBoxes S4 ++ (serializeBoxes S5 ++ serializeBoxes S6)) fuel hwf3 hn3 hP
    (by omega)
  rw [e3] at hs3
  have hp3 : ((serializeBoxes S1 ++
      be32 (8 + (serializeBoxes (S2 ++ [ubox] ++ S5)).length) ++ moovTag) ++
      serializeBoxes S2 ++
      be32 (8 + (serializeBoxes (S3 ++ [Box.leaf uuidTag P] ++ S4)).length) ++
      udtaTag).length =
      (serializeBoxes S1).length + 8 + (serializeBoxes S2).length + 8 := by
    simp only [List.length_append, be32_length, moovTag_length, udtaTag_length]
  rw [hp3] at hs3
  simp only [get_video_uuid, atom_container_names, runAtoms, hs1, hs2, hs3]

theorem get_video_uuid_locates_payload_witness :
    get_video_uuid witBoxData 10 = .ok (some witP) :=
  get_video_uuid_locates_payload witS1 witS2 witS3 [] witS5 witS6 witP
    (Box.node udtaTag (witS3 ++ [Box.leaf uuidTag witP] ++ []))
    (Box.node moovTag (witS2 ++
      [Box.node udtaTag (witS3 ++ [Box.leaf uuidTag witP] ++ [])] ++ witS5))
    witBoxData 10 rfl rfl rfl
    (by decide) (by decide) (by decide) (by decide) (by decide)
    (by decide) (by decide) (by decide) (by decide) (by decide) (by decide)

/-- Claim C5 is refuted as stated: in the container `cexData` the box
`udta` is absent at its nesting level (the `moov` box has a single child
named `free`), so the claim demands NotFound; but the walker's `while`
loops are bounded by the end of the file, not by the enclosing box, so the
scan for `udta` walks out of `moov` and matches the top-level `udta` box
that follows it, and the walker returns that box's `uuid` payload instead
of None. -/
theorem get_video_uuid_flat_scan_cex :
    (∀ b ∈ [Box.leaf [102, 114, 101, 101] ([] : List Nat)], boxName b ≠ udtaTag) ∧
    get_video_uuid cexData 10 = .ok (some cexP) ∧
    (PyR.ok (some cexP) : PyR (Option (List Nat))) ≠ .ok none := by
  refine ⟨by decide, by decide, by decide⟩

/-- Claim C5 (amended).  The walker reports NotFound (returns `None`)
without raising when a path element never matches in the flat forward scan
of the remaining file: here, when no box named `udta` occurs either among
`moov`'s children or among the boxes after `moov`, the scan runs to the end
of the file, every later loop starts at end of file, and the result is
`None`.  (Matching is flat over the rest of the file rather than confined
to the enclosing box, so an element absent at its nesting level but present
later in the file can still be matched — the refutation above.) -/
theorem get_video_uuid_absent_notfound
    (S1 cs S2 : List Box) (mbox : Box) (data : List Nat) (fuel : Nat)
    (hm : mbox = Box.node moovTag cs)
    (hdata : data = serializeBoxes S1 ++ serializeBox mbox ++ serializeBoxes S2)
    (hwf1 : ∀ b ∈ S1, BoxWF b) (hwfm : BoxWF mbox)
    (hwfc : ∀ b ∈ cs, BoxWF b) (hwf2 : ∀ b ∈ S2, BoxWF b)
    (hn1 : ∀ b ∈ S1, boxName b ≠ moovTag)
    (hnc : ∀ b ∈ cs, boxName b ≠ udtaTag) (hn2 : ∀ b ∈ S2, boxName b ≠ udtaTag)
    (hfuel : S1.length + cs.length + S2.length + 3 ≤ fuel) :
    get_video_uuid data fuel = .ok none := by
  have e1 : ([] : List Nat) ++ serializeBoxes S1 ++
      (serializeBox mbox ++ serializeBoxes S2) = data := by
    rw [hdata]
    simp [List.append_assoc]
  have hs1 := scanFor_find_in_row moovTag S1 mbox [] (serializeBoxes S2) fuel hwf1 hn1
    hwfm (by rw [hm]; rfl) (by decide) (by omega)
  rw [e1] at hs1
  simp only [List.length_nil, Nat.zero_add] at hs1
  have e2 : (serializeBoxes S1 ++ be32 (8 + (serializeBoxes cs).length) ++ moovTag) ++
      serializeBoxes (cs ++ S2) = data := by
    rw [hdata, hm]
    simp [serializeBox, serializeBoxes, serializeBoxes_append, List.append_assoc]
  have hs2 := scanFor_exhaust_row udtaTag (cs ++ S2)
    (serializeBoxes S1 ++ be32 (8 + (serializeBoxes cs).length) ++ moovTag) fuel
    (fun b hb => (List.mem_append.mp hb).elim (hwfc b) (hwf2 b))
    (fun b hb => (List.mem_append.mp hb).elim (hnc b) (hn2 b))
    (by simp only [List.length_append]; omega)
  rw [e2] at hs2
  have hp2 : (serializeBoxes S1 ++ be32 (8 + (serializeBoxes cs).length) ++
      moovTag).length = (serializeBoxes S1).length + 8 := by
    simp only [List.length_append, be32_length, moovTag_length]
  rw [hp2] at hs2
  have hs3 : scanFor data uuidTag data.length fuel = .ok (data.length, none) := by
    rw [show fuel = fuel - 1 + 1 from by omega]
    exact scanFor_exhaust _ _ _ _ (Nat.le_refl _)
  simp only [get_video_uuid, atom_container_names, runAtoms, hs1, hs2, hs3]

theorem get_video_uuid_absent_notfound_witness :
    get_video_uuid witAbsData 10 = .ok none :=
  get_video_uuid_absent_notfound witS1 witAbsCs witAbsS2
    (Box.node moovTag witAbsCs) witAbsData 10 rfl rfl
    (by decide) (by decide) (by decide) (by decide) (by decide) (by decide)
    (by decide) (by decide)
